import Mathlib

/-!
Shallow embedding of `rust-web3-closest-provider` (src/lib.rs) and proofs of
its specified properties.

Modelling conventions:
* The latency table `HashMap<String, u128>` is modelled as an association
  list `List (String × Nat)` whose list order is the map's iteration order.
  `HashMap::insert` overwrites the value of an existing key in place and
  puts a fresh key at some unspecified position (modelled here as appending).
* `u128::MAX` is the natural number `2 ^ 128 - 1`.
* Time is `Nat` microseconds.  `Instant::duration_since` saturates at zero,
  which is exactly truncated `Nat` subtraction.
* A Rust panic (`unwrap` on an empty map, `expect` on a failed channel send)
  is modelled as `Option.none` of the corresponding operation.
-/

/-- The `u128::MAX` sentinel recorded when a probe fails
(`response.unwrap_or(u128::MAX)` in `process_response_time_check`). -/
def UNREACHABLE : Nat := 2 ^ 128 - 1

/-- One fold step of Rust's `Iterator::min_by_key` specialised to
`|(_, &v)| v`: the accumulator is replaced only when the new element's value
is strictly smaller, so the first minimal element in iteration order wins. -/
def minStep (acc : Option (String × Nat)) (p : String × Nat) :
    Option (String × Nat) :=
  match acc with
  | none => some p
  | some q => if p.2 < q.2 then some p else some q

/-- `binding.iter().min_by_key(|(_, &v)| v)` over the latency table,
with the list order standing for the map's iteration order. -/
def minByKey (l : List (String × Nat)) : Option (String × Nat) :=
  l.foldl minStep none

/-- `get_fastest_provider` from `src/lib.rs`: takes the entry of the table
with the minimum recorded value and returns its key.  The `unwrap()` panic on
an empty table is modelled by `none`. -/
def getFastestProvider (l : List (String × Nat)) : Option String :=
  (minByKey l).map Prod.fst

/-- Association-list lookup: the value the map records for a key. -/
def lookupA : List (String × Nat) → String → Option Nat
  | [], _ => none
  | p :: ps, k => if p.1 = k then some p.2 else lookupA ps k

/-- `HashMap::insert`: overwrite an existing key in place, append a fresh
key. -/
def insertA : List (String × Nat) → String → Nat → List (String × Nat)
  | [], k, v => [(k, v)]
  | p :: ps, k, v => if p.1 = k then (k, v) :: ps else p :: insertA ps k v

/-- The behaviour the network exhibits for one probe of one endpoint.
`sendResult` is `none` on a transport failure and otherwise holds the instant
(microseconds) at which `send()` completes (response headers received).
`bodyResult` is `none` when the body cannot be parsed as the expected
envelope, `some (some e)` when it parses with a populated `error` field, and
`some none` when it parses cleanly.  `bodyDoneTime` is the instant at which
the full response body has been received and read. -/
structure NetBehavior where
  sendResult : Option Nat
  bodyResult : Option (Option String)
  bodyDoneTime : Nat
deriving Repr, DecidableEq

/-- `perform_web3_client_version_request` from `src/lib.rs`: `start_time` is
taken before `send()`, `end_time` right after `send()` returns; then the body
is parsed and the `error` field inspected; on success the result is
`end_time.duration_since(start_time).as_micros()`.  Errors carry the same
message shapes as the Rust `LibError`s. -/
def performWeb3ClientVersionRequest (startTime : Nat) (net : NetBehavior) :
    Except String Nat :=
  match net.sendResult with
  | none => .error "Failed to send request"
  | some endTime =>
    match net.bodyResult with
    | none => .error "Failed to parse response"
    | some (some e) => .error ("Received error response: " ++ e)
    | some none => .ok (endTime - startTime)

/-- `response.unwrap_or(u128::MAX)`: the value actually written into the
table for one probe. -/
def probeValue (startTime : Nat) (net : NetBehavior) : Nat :=
  match performWeb3ClientVersionRequest startTime net with
  | .ok d => d
  | .error _ => UNREACHABLE

/-- The table update done by one iteration of the sweep in
`process_response_time_check`:
`response_times_map.insert(url.clone(), response_time)`. -/
def recordProbe (table : List (String × Nat)) (url : String)
    (startTime : Nat) (net : NetBehavior) : List (String × Nat) :=
  insertA table url (probeValue startTime net)

/-- State of one `ClosestWeb3RpcProviderSelector` together with its spawned
`process_response_time_check` task.  `schedulerAlive` is true while the task
(and hence the `watch::Receiver`) is alive; `stopRequested` records that the
`watch` channel holds a sent stop value the task has not yet observed. -/
structure SelState where
  table : List (String × Nat)
  schedulerAlive : Bool
  stopRequested : Bool
deriving Repr, DecidableEq

/-- The state produced by `init`: empty table, scheduler spawned and running,
no stop signal sent. -/
def initState : SelState := ⟨[], true, false⟩

/-- `is_ready` from `src/lib.rs`: the table has at least one entry. -/
def isReady (s : SelState) : Bool := s.table.length > 0

/-- The events that mutate a selector's state:
* `probe url t net` — the sweep in `process_response_time_check` finishes one
  probe of `url` (started at instant `t`, with network behaviour `net`) and
  inserts its result;
* `observeStop` — the scheduler's `select!` sees `receiver_clone.changed()`
  fire, breaks the loop and drops the receiver;
* `destroyEv` — the caller invokes `destroy()`. -/
inductive Event where
  | probe (url : String) (startTime : Nat) (net : NetBehavior)
  | observeStop
  | destroyEv
deriving Repr, DecidableEq

/-- One atomic step of the system.  `none` models a panic:
`destroy` panics (`expect` on `send`) exactly when the scheduler task has
already exited, since the task owns the only `watch::Receiver`.  A probe can
only be recorded while the scheduler task is alive, and only for a url of the
configured list; observing the stop signal requires it to have been sent. -/
def applyStep (urls : List String) (s : SelState) (e : Event) :
    Option SelState :=
  match e with
  | .probe url t net =>
    if s.schedulerAlive && urls.contains url then
      some { s with table := recordProbe s.table url t net }
    else none
  | .observeStop =>
    if s.schedulerAlive && s.stopRequested then
      some { s with schedulerAlive := false }
    else none
  | .destroyEv =>
    if s.schedulerAlive then
      some { s with stopRequested := true, table := [] }
    else none

/-- A step exists from `s` to `s'`. -/
def StepRel (urls : List String) (s s' : SelState) : Prop :=
  ∃ e, applyStep urls s e = some s'

/-- States reachable from `init` by any sequence of steps. -/
def Reachable (urls : List String) (s : SelState) : Prop :=
  Relation.ReflTransGen (StepRel urls) initState s

/- ### Helper lemmas -/

theorem foldl_minStep_some (l : List (String × Nat)) :
    ∀ a : String × Nat, ∃ b, l.foldl minStep (some a) = some b ∧
      (b = a ∨ b ∈ l) ∧ b.2 ≤ a.2 ∧ ∀ p ∈ l, b.2 ≤ p.2 := by
  induction l with
  | nil => exact fun a => ⟨a, rfl, Or.inl rfl, Nat.le_refl _, by simp⟩
  | cons p ps ih =>
    intro a
    by_cases h : p.2 < a.2
    · obtain ⟨b, hb, hmem, hle, hall⟩ := ih p
      refine ⟨b, ?_, ?_, ?_, ?_⟩
      · simpa [minStep, h] using hb
      · rcases hmem with h1 | h1
        · exact Or.inr (by simp [h1])
        · exact Or.inr (List.mem_cons_of_mem _ h1)
      · exact Nat.le_trans hle (Nat.le_of_lt h)
      · intro q hq
        rcases List.mem_cons.1 hq with h1 | h1
        · exact h1 ▸ hle
        · exact hall q h1
    · obtain ⟨b, hb, hmem, hle, hall⟩ := ih a
      refine ⟨b, ?_, ?_, hle, ?_⟩
      · simpa [minStep, h] using hb
      · rcases hmem with h1 | h1
        · exact Or.inl h1
        · exact Or.inr (List.mem_cons_of_mem _ h1)
      · intro q hq
        rcases List.mem_cons.1 hq with h1 | h1
        · exact h1 ▸ Nat.le_trans hle (Nat.le_of_not_lt h)
        · exact hall q h1

theorem minByKey_spec (l : List (String × Nat)) (hl : l ≠ []) :
    ∃ b, minByKey l = some b ∧ b ∈ l ∧ ∀ p ∈ l, b.2 ≤ p.2 := by
  match l with
  | [] => exact absurd rfl hl
  | p :: ps =>
    obtain ⟨b, hb, hmem, hle, hall⟩ := foldl_minStep_some ps p
    refine ⟨b, ?_, ?_, ?_⟩
    · simpa [minByKey, minStep] using hb
    · rcases hmem with h1 | h1
      · simp [h1]
      · exact List.mem_cons_of_mem _ h1
    · intro q hq
      rcases List.mem_cons.1 hq with h1 | h1
      · exact h1 ▸ hle
      · exact hall q h1

theorem minByKey_nil : minByKey [] = none := rfl

theorem minByKey_eq_none_iff (l : List (String × Nat)) :
    minByKey l = none ↔ l = [] := by
  constructor
  · intro h
    by_contra hne
    obtain ⟨b, hb, -, -⟩ := minByKey_spec l hne
    rw [h] at hb
    exact Option.noConfusion hb
  · intro h; simp [h, minByKey_nil]

theorem lookupA_insertA_self (t : List (String × Nat)) (k : String) (v : Nat) :
    lookupA (insertA t k v) k = some v := by
  induction t with
  | nil => simp [insertA, lookupA]
  | cons p ps ih =>
    by_cases h : p.1 = k
    · simp [insertA, h, lookupA]
    · simp [insertA, h, lookupA, ih]

theorem insertA_length_pos (t : List (String × Nat)) (k : String) (v : Nat) :
    0 < (insertA t k v).length := by
  cases t with
  | nil => simp [insertA]
  | cons p ps =>
    simp only [insertA]
    split <;> simp

theorem mem_insertA (t : List (String × Nat)) (k : String) (v : Nat)
    (p : String × Nat) (h : p ∈ insertA t k v) : p = (k, v) ∨ p ∈ t := by
  induction t with
  | nil => simpa [insertA] using h
  | cons q qs ih =>
    simp only [insertA] at h
    by_cases hq : q.1 = k
    · rw [if_pos hq] at h
      rcases List.mem_cons.1 h with h1 | h1
      · exact Or.inl h1
      · exact Or.inr (List.mem_cons_of_mem _ h1)
    · rw [if_neg hq] at h
      rcases List.mem_cons.1 h with h1 | h1
      · exact Or.inr (by simp [h1])
      · rcases ih h1 with h2 | h2
        · exact Or.inl h2
        · exact Or.inr (List.mem_cons_of_mem _ h2)

/- ### Claim theorems -/

/-- C1: for every non-empty latency table snapshot, `get_fastest_provider`
returns an endpoint whose recorded value is less than or equal to the
recorded value of every other endpoint in that snapshot. -/
theorem C1_fastest_is_min (l : List (String × Nat)) (hl : l ≠ []) :
    ∃ k v, getFastestProvider l = some k ∧ (k, v) ∈ l ∧ ∀ p ∈ l, v ≤ p.2 := by
  obtain ⟨b, hb, hmem, hall⟩ := minByKey_spec l hl
  exact ⟨b.1, b.2, by simp [getFastestProvider, hb], by simpa using hmem, hall⟩

/-- C1 witness: concrete two-entry snapshot. -/
theorem C1_witness :
    [("b", 7), ("a", 5)] ≠ ([] : List (String × Nat)) ∧
    ∃ k v, getFastestProvider [("b", 7), ("a", 5)] = some k ∧
      (k, v) ∈ [("b", 7), ("a", 5)] ∧ ∀ p ∈ [("b", 7), ("a", 5)], v ≤ p.2 :=
  ⟨by simp, C1_fastest_is_min [("b", 7), ("a", 5)] (by simp)⟩

/-- C2: if endpoint `a` holds a measured value below the unreachable sentinel
and endpoint `b` holds the sentinel, `get_fastest_provider` never returns
`b` (keys of a `HashMap` snapshot are pairwise distinct). -/
theorem C2_sentinel_never_beats_measured (l : List (String × Nat))
    (a b : String) (va : Nat) (hnd : (l.map Prod.fst).Nodup)
    (ha : (a, va) ∈ l) (hva : va < UNREACHABLE)
    (hb : (b, UNREACHABLE) ∈ l) : getFastestProvider l ≠ some b := by
  intro hget
  have hl : l ≠ [] := by
    intro h
    rw [h] at ha
    exact absurd ha (List.not_mem_nil _)
  obtain ⟨q, hq, hqmem, hall⟩ := minByKey_spec l hl
  have hq1 : q.1 = b := by
    rw [getFastestProvider, hq] at hget
    exact Option.some.inj hget
  have hqb : q = (b, UNREACHABLE) :=
    List.inj_on_of_nodup_map hnd hqmem hb hq1
  have hle : q.2 ≤ va := hall (a, va) ha
  rw [hqb] at hle
  exact absurd (Nat.lt_of_le_of_lt hle hva) (lt_irrefl _)

/-- C2 witness: a measured endpoint and an unreachable one. -/
theorem C2_witness :
    (([("a", 5), ("b", UNREACHABLE)].map Prod.fst).Nodup) ∧
    ("a", 5) ∈ [("a", 5), ("b", UNREACHABLE)] ∧ 5 < UNREACHABLE ∧
    ("b", UNREACHABLE) ∈ [("a", 5), ("b", UNREACHABLE)] ∧
    getFastestProvider [("a", 5), ("b", UNREACHABLE)] ≠ some "b" :=
  ⟨by decide, by decide, by decide, by decide,
   C2_sentinel_never_beats_measured [("a", 5), ("b", UNREACHABLE)] "a" "b" 5
     (by decide) (by decide) (by decide) (by decide)⟩

/-- C4: `get_fastest_provider` faults (the `unwrap()` panic, modelled as
`none`) exactly on the empty latency table; on any non-empty table it
returns an endpoint. -/
theorem C4_empty_table_faults (l : List (String × Nat)) :
    getFastestProvider l = none ↔ l = [] := by
  rw [getFastestProvider]
  cases h : minByKey l with
  | none => simp [(minByKey_eq_none_iff l).1 h]
  | some q =>
    have : l ≠ [] := by
      intro h0
      rw [h0, minByKey_nil] at h
      exact Option.noConfusion h
    simp [this]

/-- The failure condition of one probe: transport failure, unparsable body,
or a populated `error` field in the parsed response. -/
def probeFails (net : NetBehavior) : Bool :=
  match net.sendResult, net.bodyResult with
  | none, _ => true
  | some _, none => true
  | some _, some (some _) => true
  | some _, some none => false

/-- C3: a probe records the unreachable sentinel exactly when the transport
request fails, the body cannot be parsed, or the parsed response carries a
populated error field; otherwise it records the measured duration
(`end_time - start_time` in microseconds), and the recorded value overwrites
any prior entry for that endpoint.  The bound hypothesis reflects that a
real `Duration::as_micros` value is always below `u128::MAX`. -/
theorem C3_probe_outcome_recorded (table : List (String × Nat)) (url : String)
    (start : Nat) (net : NetBehavior)
    (hbound : ∀ t, net.sendResult = some t → t - start < UNREACHABLE) :
    lookupA (recordProbe table url start net) url
      = some (probeValue start net) ∧
    (probeValue start net = UNREACHABLE ↔ probeFails net = true) ∧
    (∀ t, net.sendResult = some t → net.bodyResult = some none →
      probeValue start net = t - start) := by
  refine ⟨lookupA_insertA_self _ _ _, ?_, ?_⟩
  · cases hs : net.sendResult with
    | none =>
      simp [probeValue, performWeb3ClientVersionRequest, probeFails, hs]
    | some t =>
      cases hb : net.bodyResult with
      | none =>
        simp [probeValue, performWeb3ClientVersionRequest, probeFails, hs, hb]
      | some eo =>
        cases eo with
        | none =>
          have hlt := hbound t hs
          simp only [probeValue, performWeb3ClientVersionRequest, probeFails,
            hs, hb]
          constructor
          · intro h
            exact absurd h (Nat.ne_of_lt hlt)
          · intro h
            exact Bool.noConfusion h
        | some e =>
          simp [probeValue, performWeb3ClientVersionRequest, probeFails,
            hs, hb]
  · intro t hs hb
    simp [probeValue, performWeb3ClientVersionRequest, hs, hb]

/-- C3 witness: a clean response sent at 10 and returning at 40 records 30
microseconds, overwriting the prior entry of the same endpoint. -/
theorem C3_witness :
    (∀ t, (⟨some 40, some none, 100⟩ : NetBehavior).sendResult = some t →
      t - 10 < UNREACHABLE) ∧
    (lookupA (recordProbe [("u", 3)] "u" 10 ⟨some 40, some none, 100⟩) "u"
      = some (probeValue 10 ⟨some 40, some none, 100⟩) ∧
    (probeValue 10 ⟨some 40, some none, 100⟩ = UNREACHABLE ↔
      probeFails ⟨some 40, some none, 100⟩ = true) ∧
    (∀ t, (⟨some 40, some none, 100⟩ : NetBehavior).sendResult = some t →
      (⟨some 40, some none, 100⟩ : NetBehavior).bodyResult = some none →
      probeValue 10 ⟨some 40, some none, 100⟩ = t - 10)) :=
  ⟨fun t ht => by
      injection ht with h
      subst h
      decide,
   C3_probe_outcome_recorded [("u", 3)] "u" 10 ⟨some 40, some none, 100⟩
     (fun t ht => by
      injection ht with h
      subst h
      decide)⟩

/-- C5: once a first `destroy` has been issued and the scheduler has
observed the stop signal (dropping the only `watch::Receiver`), a second
`destroy` panics (`expect` on a failed `send`), modelled as `none`. -/
theorem C5_second_destroy_panics (urls : List String) (s s1 s2 : SelState)
    (_h1 : applyStep urls s Event.destroyEv = some s1)
    (h2 : applyStep urls s1 Event.observeStop = some s2) :
    applyStep urls s2 Event.destroyEv = none := by
  simp only [applyStep] at h2 ⊢
  cases hc : s1.schedulerAlive && s1.stopRequested with
  | false =>
    rw [hc] at h2
    exact Option.noConfusion h2
  | true =>
    rw [hc] at h2
    simp only [if_true] at h2
    have hs2 := Option.some.inj h2
    rw [← hs2]
    simp

/-- C5 witness: destroy, scheduler observes the stop, second destroy
panics. -/
theorem C5_witness :
    applyStep [] ⟨[("a", 5)], true, false⟩ Event.destroyEv
      = some ⟨[], true, true⟩ ∧
    applyStep [] ⟨[], true, true⟩ Event.observeStop
      = some ⟨[], false, true⟩ ∧
    applyStep [] ⟨[], false, true⟩ Event.destroyEv = none :=
  ⟨by decide, by decide,
   C5_second_destroy_panics [] ⟨[("a", 5)], true, false⟩ ⟨[], true, true⟩
     ⟨[], false, true⟩ (by decide) (by decide)⟩

/-- C6: a (non-panicking) `destroy` sends the stop signal and clears the
table synchronously: in the post-state the table is empty, `is_ready` is
false and the stop signal is pending — whatever the table held before. -/
theorem C6_destroy_clears_table (urls : List String) (s s' : SelState)
    (h : applyStep urls s Event.destroyEv = some s') :
    s'.table = [] ∧ isReady s' = false ∧ s'.stopRequested = true := by
  simp only [applyStep] at h
  cases ha : s.schedulerAlive with
  | false =>
    rw [ha] at h
    simp at h
  | true =>
    rw [ha] at h
    simp only [if_true] at h
    have hs := Option.some.inj h
    rw [← hs]
    refine ⟨rfl, ?_, rfl⟩
    simp [isReady]

/-- C6 witness: destroying a selector with a populated table empties it. -/
theorem C6_witness :
    (⟨[], true, true⟩ : SelState).table = [] ∧
    isReady ⟨[], true, true⟩ = false ∧
    (⟨[], true, true⟩ : SelState).stopRequested = true :=
  C6_destroy_clears_table ["a"] ⟨[("a", 5), ("b", 7)], true, false⟩
    ⟨[], true, true⟩ (by decide)

/-- C7: readiness is monotone until teardown: any step other than `destroy`
maps a non-empty table to a non-empty table, since a probe only inserts or
overwrites entries and observing the stop signal leaves the table alone. -/
theorem C7_readiness_monotone (urls : List String) (s s' : SelState)
    (e : Event) (hne : e ≠ Event.destroyEv)
    (h : applyStep urls s e = some s') (hr : isReady s = true) :
    isReady s' = true := by
  cases e with
  | probe url t net =>
    simp only [applyStep] at h
    cases hc : s.schedulerAlive && urls.contains url with
    | false =>
      rw [hc] at h
      exact Option.noConfusion h
    | true =>
      rw [hc] at h
      simp only [if_true] at h
      have hs := Option.some.inj h
      rw [← hs]
      simp only [isReady, recordProbe]
      exact decide_eq_true (insertA_length_pos _ _ _)
  | observeStop =>
    simp only [applyStep] at h
    cases hc : s.schedulerAlive && s.stopRequested with
    | false =>
      rw [hc] at h
      exact Option.noConfusion h
    | true =>
      rw [hc] at h
      simp only [if_true] at h
      have hs := Option.some.inj h
      rw [← hs]
      exact hr
  | destroyEv => exact absurd rfl hne

/-- C7 witness: a probe overwriting the only entry keeps readiness true. -/
theorem C7_witness :
    Event.probe "a" 0 ⟨some 3, some none, 3⟩ ≠ Event.destroyEv ∧
    applyStep ["a"] ⟨[("a", 1)], true, false⟩
      (Event.probe "a" 0 ⟨some 3, some none, 3⟩)
      = some ⟨[("a", 3)], true, false⟩ ∧
    isReady ⟨[("a", 1)], true, false⟩ = true ∧
    isReady ⟨[("a", 3)], true, false⟩ = true :=
  ⟨by decide, by decide, by decide,
   C7_readiness_monotone ["a"] ⟨[("a", 1)], true, false⟩
     ⟨[("a", 3)], true, false⟩ (Event.probe "a" 0 ⟨some 3, some none, 3⟩)
     (by decide) (by decide) (by decide)⟩

/-- C8 counterexample: a probe whose `send()` completes at instant 5 but
whose full response body is only available at instant 100 records 5, not the
elapsed time 100 to body availability — `end_time` is taken right after
`send()` returns, before `response.json()` reads the body. -/
theorem C8_counterexample :
    performWeb3ClientVersionRequest 0 ⟨some 5, some none, 100⟩
      = Except.ok 5 ∧
    (⟨some 5, some none, 100⟩ : NetBehavior).bodyDoneTime - 0 = 100 ∧
    (5 : Nat) ≠ 100 :=
  ⟨rfl, rfl, by decide⟩

/-- C8 (amended): the recorded round-trip duration is measured from just
before the request is sent to just after `send()` returns (response headers
received); the response body is parsed only after the timer has stopped, so
the timed interval does not cover reading the body. -/
theorem C8_timer_stops_at_send (start : Nat) (net : NetBehavior) (d : Nat)
    (h : performWeb3ClientVersionRequest start net = Except.ok d) :
    ∃ tEnd, net.sendResult = some tEnd ∧ d = tEnd - start ∧
      net.bodyResult = some none := by
  cases hs : net.sendResult with
  | none =>
    rw [performWeb3ClientVersionRequest, hs] at h
    exact Except.noConfusion h
  | some t =>
    cases hb : net.bodyResult with
    | none =>
      rw [performWeb3ClientVersionRequest, hs, hb] at h
      exact Except.noConfusion h
    | some eo =>
      cases eo with
      | none =>
        rw [performWeb3ClientVersionRequest, hs, hb] at h
        exact ⟨t, rfl, (Except.ok.inj h).symm, rfl⟩
      | some e =>
        rw [performWeb3ClientVersionRequest, hs, hb] at h
        exact Except.noConfusion h

/-- C8 witness: a successful probe started at 10 whose `send()` returns at
40 records 30 microseconds. -/
theorem C8_witness :
    performWeb3ClientVersionRequest 10 ⟨some 40, some none, 99⟩
      = Except.ok 30 ∧
    ∃ tEnd, (⟨some 40, some none, 99⟩ : NetBehavior).sendResult = some tEnd ∧
      30 = tEnd - 10 ∧
      (⟨some 40, some none, 99⟩ : NetBehavior).bodyResult = some none :=
  ⟨rfl, C8_timer_stops_at_send 10 ⟨some 40, some none, 99⟩ 30 rfl⟩

/-- C9 counterexample: two snapshots holding exactly the same entries (a
permutation, hence pointwise-equal as maps) but in different iteration
orders: with a tie at the minimum, `get_fastest_provider` returns a
different endpoint for each, so it is not a function of the extensional
contents alone. -/
theorem C9_counterexample :
    List.Perm [("a", 5), ("b", 5)] [("b", 5), ("a", 5)] ∧
    (∀ k, lookupA [("a", 5), ("b", 5)] k = lookupA [("b", 5), ("a", 5)] k) ∧
    getFastestProvider [("a", 5), ("b", 5)] = some "a" ∧
    getFastestProvider [("b", 5), ("a", 5)] = some "b" ∧
    ("a" : String) ≠ "b" := by
  refine ⟨by decide, ?_, by decide, by decide, by decide⟩
  intro k
  by_cases ha : "a" = k <;> by_cases hb : "b" = k <;>
    simp [lookupA, ha, hb]

/-- C9 (amended): `get_fastest_provider` is deterministic for a fixed
snapshot (it is a function of the iteration sequence), and whenever no two
endpoints share a recorded value — in particular whenever there is no tie at
the minimum — it is a pure function of the extensional contents: any two
snapshots holding the same entries return the same endpoint. -/
theorem C9_deterministic_without_ties (l1 l2 : List (String × Nat))
    (hperm : List.Perm l1 l2) (hnd : (l1.map Prod.snd).Nodup) :
    getFastestProvider l1 = getFastestProvider l2 := by
  cases h1 : minByKey l1 with
  | none =>
    have he1 : l1 = [] := (minByKey_eq_none_iff l1).1 h1
    have he2 : l2 = [] := List.Perm.eq_nil (List.Perm.symm (he1 ▸ hperm))
    rw [he1, he2]
  | some q1 =>
    have hl1 : l1 ≠ [] := by
      intro h0
      rw [h0, minByKey_nil] at h1
      exact Option.noConfusion h1
    obtain ⟨q1', hq1', hmem1, hall1⟩ := minByKey_spec l1 hl1
    rw [h1] at hq1'
    have hq1e := Option.some.inj hq1'
    subst hq1e
    have hl2 : l2 ≠ [] := by
      intro h0
      exact hl1 (List.Perm.eq_nil (h0 ▸ hperm))
    obtain ⟨q2, hq2, hmem2, hall2⟩ := minByKey_spec l2 hl2
    have hmem1' : q1 ∈ l2 := (List.Perm.mem_iff hperm).1 hmem1
    have hmem2' : q2 ∈ l1 := (List.Perm.mem_iff hperm).2 hmem2
    have h12 : q1.2 ≤ q2.2 := hall1 q2 hmem2'
    have h21 : q2.2 ≤ q1.2 := hall2 q1 hmem1'
    have heq2 : q1.2 = q2.2 := Nat.le_antisymm h12 h21
    have heq : q1 = q2 := List.inj_on_of_nodup_map hnd hmem1 hmem2' heq2
    rw [getFastestProvider, getFastestProvider, h1, hq2, heq]

/-- C9 witness: with all values distinct, permuted snapshots agree. -/
theorem C9_witness :
    List.Perm [("a", 3), ("b", 5)] [("b", 5), ("a", 3)] ∧
    (([("a", 3), ("b", 5)].map Prod.snd).Nodup) ∧
    getFastestProvider [("a", 3), ("b", 5)]
      = getFastestProvider [("b", 5), ("a", 3)] :=
  ⟨by decide, by decide,
   C9_deterministic_without_ties [("a", 3), ("b", 5)] [("b", 5), ("a", 3)]
     (by decide) (by decide)⟩

theorem step_preserves_keys (urls : List String) (s s' : SelState)
    (e : Event) (h : applyStep urls s e = some s')
    (hk : ∀ p ∈ s.table, p.1 ∈ urls) : ∀ p ∈ s'.table, p.1 ∈ urls := by
  cases e with
  | probe url t net =>
    simp only [applyStep] at h
    cases hc : s.schedulerAlive && urls.contains url with
    | false =>
      rw [hc] at h
      exact Option.noConfusion h
    | true =>
      rw [hc] at h
      simp only [if_true] at h
      have hurl : url ∈ urls := by
        have hc' := hc
        simp only [Bool.and_eq_true] at hc'
        simpa using hc'.2
      have hs := Option.some.inj h
      rw [← hs]
      intro p hp
      rcases mem_insertA s.table url (probeValue t net) p hp with h1 | h1
      · rw [h1]
        exact hurl
      · exact hk p h1
  | observeStop =>
    simp only [applyStep] at h
    cases hc : s.schedulerAlive && s.stopRequested with
    | false =>
      rw [hc] at h
      exact Option.noConfusion h
    | true =>
      rw [hc] at h
      simp only [if_true] at h
      have hs := Option.some.inj h
      rw [← hs]
      exact hk
  | destroyEv =>
    simp only [applyStep] at h
    cases hc : s.schedulerAlive with
    | false =>
      rw [hc] at h
      simp at h
    | true =>
      rw [hc] at h
      simp only [if_true] at h
      have hs := Option.some.inj h
      rw [← hs]
      intro p hp
      exact absurd hp (List.not_mem_nil p)

theorem reachable_keys_configured (urls : List String) (s : SelState)
    (h : Reachable urls s) : ∀ p ∈ s.table, p.1 ∈ urls := by
  induction h with
  | refl =>
    intro p hp
    exact absurd hp (List.not_mem_nil p)
  | tail hab hbc ih =>
    obtain ⟨e, he⟩ := hbc
    exact step_preserves_keys urls _ _ e he ih

/-- C10: in every state reachable from `init`, every key of the latency
table is one of the configured URLs, so whenever `get_fastest_provider`
returns, its result is a configured endpoint URL. -/
theorem C10_result_is_configured_url (urls : List String) (s : SelState)
    (h : Reachable urls s) :
    (∀ p ∈ s.table, p.1 ∈ urls) ∧
    ∀ k, getFastestProvider s.table = some k → k ∈ urls := by
  have hk := reachable_keys_configured urls s h
  refine ⟨hk, ?_⟩
  intro k hget
  have hne : s.table ≠ [] := by
    intro h0
    rw [h0, getFastestProvider, minByKey_nil] at hget
    exact Option.noConfusion hget
  obtain ⟨q, hq, hqmem, -⟩ := minByKey_spec s.table hne
  have hq1 : q.1 = k := by
    rw [getFastestProvider, hq] at hget
    exact Option.some.inj hget
  exact hq1 ▸ hk q hqmem

/-- C10 witness: after one successful probe of the single configured URL,
the selection returns that URL. -/
theorem C10_witness :
    (∀ p ∈ (⟨[("a", 5)], true, false⟩ : SelState).table, p.1 ∈ ["a"]) ∧
    ∀ k, getFastestProvider (⟨[("a", 5)], true, false⟩ : SelState).table
      = some k → k ∈ ["a"] :=
  C10_result_is_configured_url ["a"] ⟨[("a", 5)], true, false⟩
    (Relation.ReflTransGen.single
      ⟨Event.probe "a" 0 ⟨some 5, some none, 5⟩, by decide⟩)
